import Mathlib

/-!
Verification of the Shield permission resolver and the order-status
transition guard of the seafood order-management backend.

The Shield resolver (`core/permissions/shield.py`) is embedded as pure
functions over an explicit state: the database part (permission catalog,
role-permission map, user-permission overrides) and the resolver-local
role-permission cache.  Database rows are lists; `Permission.objects.get`
succeeds exactly when the name is in the catalog (names are unique);
`.filter(...).first()` is `List.find?`; the cache dictionary is an
association list read through `cacheLookup`.
-/

/-- The database state backing the Shield resolver: the permission catalog
(permission names, unique), the role-permission map (rows `(role, name)`),
and the user override store (rows `(userId, name, granted)`). -/
structure PermDb where
  catalog : List String
  rolePerms : List (String × String)
  userPerms : List (Nat × String × Bool)
  deriving Repr, DecidableEq

/-- A Shield instance: the database it reads plus its role-permission
cache (`self._role_permission_cache`, keyed by `(role, name)`). -/
structure ShieldState where
  db : PermDb
  roleCache : List ((String × String) × Bool)
  deriving Repr, DecidableEq

/-- The actor record the resolver receives: identity plus role string. -/
structure ShieldUser where
  id : Nat
  role : String
  deriving Repr, DecidableEq

/-- The hard-coded universal-grantee roles of `Shield.can`
(`user.role in [UserRole.ADMIN.value, UserRole.MANAGER.value]`). -/
def universalRoles : List String := ["admin", "manager"]

/-- Dictionary read of the role-permission cache. -/
def cacheLookup (c : List ((String × String) × Bool)) (k : String × String) :
    Option Bool :=
  (c.find? (fun e => e.1 == k)).map (fun e => e.2)

/-- Embeds `UserPermission.objects.filter(user=user, permission=permission).first()`:
the first override row of this user for this permission name. -/
def findOverride (db : PermDb) (uid : Nat) (name : String) :
    Option (Nat × String × Bool) :=
  db.userPerms.find? (fun row => row.1 == uid && row.2.1 == name)

/-- Embeds `Shield._check_user_permission`: resolve the permission name in the
catalog (`Permission.objects.get`); on `DoesNotExist` return `none`;
otherwise return the override row value if one exists, else `none`. -/
def check_user_permission (db : PermDb) (u : ShieldUser) (name : String) :
    Option Bool :=
  if name ∈ db.catalog then
    match findOverride db u.id name with
    | some row => some row.2.2
    | none => none
  else none

/-- Embeds `Shield._check_role_permission`: answer from the cache on a hit; on a
miss resolve the name in the catalog, compute whether a `(role, name)` row
exists, cache that answer, and return it; `DoesNotExist` returns `false`
without caching. -/
def check_role_permission (s : ShieldState) (role name : String) :
    Bool × ShieldState :=
  match cacheLookup s.roleCache (role, name) with
  | some b => (b, s)
  | none =>
    if name ∈ s.db.catalog then
      let hasPerm := decide ((role, name) ∈ s.db.rolePerms)
      (hasPerm, { s with roleCache := ((role, name), hasPerm) :: s.roleCache })
    else (false, s)

/-- Embeds `Shield.can`, with its cache effect made explicit: universal-grantee
bypass first, then the user override, then the role layer.  The
`resourceId` argument is accepted as in the source and never read. -/
def canStep (s : ShieldState) (u : ShieldUser) (name : String)
    (resourceId : Option Nat) : Bool × ShieldState :=
  if u.role ∈ universalRoles then (true, s)
  else
    match check_user_permission s.db u name with
    | some b => (b, s)
    | none => check_role_permission s u.role name

/-- The boolean decision of `Shield.can`. -/
def can (s : ShieldState) (u : ShieldUser) (name : String)
    (resourceId : Option Nat) : Bool :=
  (canStep s u name resourceId).1

/-- Embeds `Shield.cannot`: strict complement of `can`. -/
def cannot (s : ShieldState) (u : ShieldUser) (name : String)
    (resourceId : Option Nat) : Bool :=
  !(can s u name resourceId)

/-- Embeds `Shield.has_any`: `any(self.can(user, perm) for perm in names)` with
Python generator short-circuiting, the cache effect threaded through. -/
def has_any : ShieldState → ShieldUser → List String → Bool × ShieldState
  | s, _, [] => (false, s)
  | s, u, n :: rest =>
    match canStep s u n none with
    | (true, s1) => (true, s1)
    | (false, s1) => has_any s1 u rest

/-- Embeds `Shield.has_all`: `all(self.can(user, perm) for perm in names)` with
Python generator short-circuiting, the cache effect threaded through. -/
def has_all : ShieldState → ShieldUser → List String → Bool × ShieldState
  | s, _, [] => (true, s)
  | s, u, n :: rest =>
    match canStep s u n none with
    | (true, s1) => has_all s1 u rest
    | (false, s1) => (false, s1)

/-- Python `set.add`. -/
def setAdd (l : List String) (x : String) : List String :=
  if x ∈ l then l else x :: l

/-- Python `set.discard`. -/
def setDiscard (l : List String) (x : String) : List String :=
  l.filter (fun y => !(y == x))

/-- The override loop of `Shield.get_user_permissions`: for each override
row of the user, add the name if granted, discard it otherwise. -/
def applyOverrides : List (Nat × String × Bool) → List String → List String
  | [], acc => acc
  | row :: rest, acc =>
    applyOverrides rest
      (if row.2.2 then setAdd acc row.2.1 else setDiscard acc row.2.1)

/-- Embeds `Shield.get_user_permissions`: the full catalog for universal roles;
otherwise the role default set with the user's override rows applied. -/
def get_user_permissions (db : PermDb) (u : ShieldUser) : List String :=
  if u.role ∈ universalRoles then db.catalog
  else
    applyOverrides (db.userPerms.filter (fun row => row.1 == u.id))
      ((db.rolePerms.filter (fun e => e.1 == u.role)).map (fun e => e.2))

/-- Embeds `update_or_create` on the override store: replace the row for
`(uid, name)` when present, append a fresh row otherwise. -/
def upsertOverride (rows : List (Nat × String × Bool)) (uid : Nat)
    (name : String) (g : Bool) : List (Nat × String × Bool) :=
  if rows.any (fun row => row.1 == uid && row.2.1 == name) then
    rows.map (fun row =>
      if row.1 == uid && row.2.1 == name then (uid, name, g) else row)
  else rows ++ [(uid, name, g)]

/-- Embeds `Shield.grant`: resolve the name in the catalog; on success upsert an
override row with `granted = True` and return `True`; on `DoesNotExist`
return `False` unchanged. -/
def grant (s : ShieldState) (u : ShieldUser) (name : String) :
    Bool × ShieldState :=
  if name ∈ s.db.catalog then
    (true, { s with
      db := { s.db with userPerms := upsertOverride s.db.userPerms u.id name true } })
  else (false, s)

/-- Embeds `Shield.revoke`: as `grant` but the override row carries
`granted = False`. -/
def revoke (s : ShieldState) (u : ShieldUser) (name : String) :
    Bool × ShieldState :=
  if name ∈ s.db.catalog then
    (true, { s with
      db := { s.db with userPerms := upsertOverride s.db.userPerms u.id name false } })
  else (false, s)

/-- Embeds `Shield.clear_cache`. -/
def clear_cache (s : ShieldState) : ShieldState :=
  { s with roleCache := [] }

/-- The uncached role-layer answer: the name resolves in the catalog and a
`(role, name)` row exists in the role-permission map. -/
def roleDbAnswer (db : PermDb) (role name : String) : Bool :=
  if name ∈ db.catalog then decide ((role, name) ∈ db.rolePerms) else false

/-- Database well-formedness as the Django models enforce it: at most one
override row per `(user, permission)` pair (`unique_together`), and every
override row references a catalog entry (foreign key). -/
def dbWf (db : PermDb) : Prop :=
  db.userPerms.Pairwise (fun a b => ¬(a.1 = b.1 ∧ a.2.1 = b.2.1)) ∧
  ∀ row ∈ db.userPerms, row.2.1 ∈ db.catalog

/-- Cache coherence: every cached entry agrees with the uncached
role-layer answer over the current database. -/
def cacheOk (s : ShieldState) : Prop :=
  ∀ role name b, cacheLookup s.roleCache (role, name) = some b →
    b = roleDbAnswer s.db role name

/-- A small concrete database used by witnesses. -/
def sampleDb : PermDb :=
  { catalog := ["order:create", "order:read", "order:delete"]
    rolePerms := [("sale", "order:create"), ("sale", "order:read")]
    userPerms := [(7, "order:delete", true), (8, "order:read", false)] }

/-- A fresh Shield over the sample database. -/
def sampleState : ShieldState := { db := sampleDb, roleCache := [] }

/-- C1: an actor whose role is admin or manager is allowed regardless of
the catalog, the override store, the role-permission map and the cache,
and the decision leaves the resolver state untouched. -/
theorem can_universal_bypass (u : ShieldUser)
    (h : u.role = "admin" ∨ u.role = "manager") :
    ∀ (s : ShieldState) (name : String) (rid : Option Nat),
      canStep s u name rid = (true, s) := by
  intro s name rid
  have hmem : u.role ∈ universalRoles := by
    rcases h with h1 | h1 <;> simp [universalRoles, h1]
  simp [canStep, hmem]

/-- Witness for C1 at a concrete admin actor and a name absent from the
sample catalog. -/
theorem can_universal_bypass_witness :
    ((⟨1, "admin"⟩ : ShieldUser).role = "admin" ∨
      (⟨1, "admin"⟩ : ShieldUser).role = "manager") ∧
    canStep sampleState ⟨1, "admin"⟩ "ghost:permission" none =
      (true, sampleState) :=
  ⟨Or.inl rfl,
    can_universal_bypass ⟨1, "admin"⟩ (Or.inl rfl) sampleState
      "ghost:permission" none⟩

/-- With unique override keys, the row lookup used by
`_check_user_permission` finds exactly the row that is in the store. -/
theorem find?_override_unique (rows : List (Nat × String × Bool)) (uid : Nat)
    (n : String) (g : Bool)
    (huniq : rows.Pairwise (fun a b => ¬(a.1 = b.1 ∧ a.2.1 = b.2.1)))
    (hmem : (uid, n, g) ∈ rows) :
    rows.find? (fun row => row.1 == uid && row.2.1 == n) = some (uid, n, g) := by
  induction rows with
  | nil => cases hmem
  | cons r rest ih =>
    rcases List.pairwise_cons.mp huniq with ⟨hhead, hrest⟩
    by_cases hp : (r.1 == uid && r.2.1 == n) = true
    · have hr : r = (uid, n, g) := by
        rcases List.mem_cons.mp hmem with he | hm
        · exact he.symm
        · exfalso
          have hk := hhead _ hm
          simp only [Bool.and_eq_true, beq_iff_eq] at hp
          exact hk ⟨hp.1, hp.2⟩
      simp [List.find?_cons, hp, hr]
    · have hm : (uid, n, g) ∈ rest := by
        rcases List.mem_cons.mp hmem with he | hm
        · exfalso; apply hp; rw [← he]; simp
        · exact hm
      have hp' : (r.1 == uid && r.2.1 == n) = false := by simpa using hp
      simp only [List.find?_cons, hp']
      exact ih hrest hm

/-- C2: for a non-universal actor, an existing override row decides the
check with exactly its `granted` boolean, whatever the role-permission
map (and cache) say. -/
theorem can_override_wins (s : ShieldState) (u : ShieldUser) (name : String)
    (g : Bool) (rid : Option Nat)
    (hrole : u.role ∉ universalRoles)
    (hwf : dbWf s.db)
    (hrow : (u.id, name, g) ∈ s.db.userPerms) :
    can s u name rid = g := by
  have hcat : name ∈ s.db.catalog := hwf.2 (u.id, name, g) hrow
  have hfind : findOverride s.db u.id name = some (u.id, name, g) :=
    find?_override_unique s.db.userPerms u.id name g hwf.1 hrow
  simp [can, canStep, hrole, check_user_permission, hcat, hfind]

/-- Witness for C2: user 7 (role sale) has a grant override for
`order:delete`, which the sale role lacks in the map, and `can` says
true. -/
theorem can_override_wins_witness :
    (((⟨7, "sale"⟩ : ShieldUser).role ∉ universalRoles) ∧ dbWf sampleDb ∧
      (7, "order:delete", true) ∈ sampleDb.userPerms) ∧
    can sampleState ⟨7, "sale"⟩ "order:delete" none = true :=
  ⟨⟨by decide, ⟨by decide, by decide⟩, by decide⟩,
    can_override_wins sampleState ⟨7, "sale"⟩ "order:delete" true none
      (by decide) ⟨by decide, by decide⟩ (by decide)⟩

/-- After `update_or_create`, the override lookup returns the freshly
written row. -/
theorem find?_upsertOverride (rows : List (Nat × String × Bool)) (uid : Nat)
    (n : String) (g : Bool) :
    (upsertOverride rows uid n g).find?
      (fun row => row.1 == uid && row.2.1 == n) = some (uid, n, g) := by
  unfold upsertOverride
  by_cases hany : rows.any (fun row => row.1 == uid && row.2.1 == n) = true
  · rw [if_pos hany]
    induction rows with
    | nil => simp at hany
    | cons r rest ih =>
      by_cases hp : (r.1 == uid && r.2.1 == n) = true
      · simp only [List.map_cons, if_pos hp]
        simp [List.find?_cons]
      · simp only [List.map_cons, if_neg hp]
        have hp' : (r.1 == uid && r.2.1 == n) = false := by simpa using hp
        simp only [List.find?_cons, hp']
        apply ih
        simp only [List.any_cons, hp', Bool.false_or] at hany
        exact hany
  · rw [if_neg hany]
    induction rows with
    | nil => simp [List.find?_cons]
    | cons r rest ih =>
      simp only [List.any_cons, Bool.or_eq_true, not_or] at hany
      have hp' : (r.1 == uid && r.2.1 == n) = false := by
        simpa using hany.1
      rw [List.cons_append]
      simp only [List.find?_cons, hp']
      exact ih (by simpa using hany.2)

/-- C5 (amended): for a non-universal actor and a catalogued permission
name, the very next `can` after `grant` answers true and the very next
`can` after `revoke` answers false, whatever the role default and the
cache. -/
theorem grant_revoke_immediate (s : ShieldState) (u : ShieldUser)
    (name : String) (rid : Option Nat)
    (hrole : u.role ∉ universalRoles)
    (hcat : name ∈ s.db.catalog) :
    can (grant s u name).2 u name rid = true ∧
    can (revoke s u name).2 u name rid = false := by
  constructor
  · have hf := find?_upsertOverride s.db.userPerms u.id name true
    simp [grant, hcat, can, canStep, hrole, check_user_permission,
      findOverride, hf]
  · have hf := find?_upsertOverride s.db.userPerms u.id name false
    simp [revoke, hcat, can, canStep, hrole, check_user_permission,
      findOverride, hf]

/-- Witness for C5: user 8 (role sale) on `order:create`, a permission the
sale role holds by default; after `revoke` the next `can` is still false. -/
theorem grant_revoke_immediate_witness :
    (((⟨8, "sale"⟩ : ShieldUser).role ∉ universalRoles) ∧
      "order:create" ∈ sampleDb.catalog) ∧
    can (grant sampleState ⟨8, "sale"⟩ "order:create").2 ⟨8, "sale"⟩
      "order:create" none = true ∧
    can (revoke sampleState ⟨8, "sale"⟩ "order:create").2 ⟨8, "sale"⟩
      "order:create" none = false :=
  ⟨⟨by decide, by decide⟩,
    grant_revoke_immediate sampleState ⟨8, "sale"⟩ "order:create" none
      (by decide) (by decide)⟩

/-- Counterexample to C5 as stated: after `revoke`, an admin actor is
still allowed (the universal bypass ignores the fresh revoke override);
and `grant` of a name absent from the catalog is a no-op after which
`can` is still false for a sale actor. -/
theorem grant_revoke_claim_counterexample :
    can (revoke sampleState ⟨1, "admin"⟩ "order:create").2 ⟨1, "admin"⟩
      "order:create" none = true ∧
    (grant sampleState ⟨7, "sale"⟩ "ghost:permission").2 = sampleState ∧
    can (grant sampleState ⟨7, "sale"⟩ "ghost:permission").2 ⟨7, "sale"⟩
      "ghost:permission" none = false := by decide

/-- For a non-universal actor, a name missing from the catalog is denied
without touching the state, as long as the cache agrees with the store. -/
theorem canStep_missing (s : ShieldState) (u : ShieldUser) (name : String)
    (rid : Option Nat)
    (hrole : u.role ∉ universalRoles)
    (hc : cacheOk s)
    (hname : name ∉ s.db.catalog) :
    canStep s u name rid = (false, s) := by
  have hcu : check_user_permission s.db u name = none := by
    simp [check_user_permission, hname]
  simp only [canStep, if_neg hrole, hcu]
  unfold check_role_permission
  cases hcl : cacheLookup s.roleCache (u.role, name) with
  | some b =>
    have hb := hc u.role name b hcl
    rw [roleDbAnswer, if_neg hname] at hb
    simp [hb]
  | none => simp [hname]

/-- Counterexample to C4 as stated: an admin actor is allowed on a name
absent from the catalog, so `can` does not return false for every actor
on missing names. -/
theorem can_missing_claim_counterexample :
    ("ghost:permission" ∉ sampleDb.catalog) ∧
    can sampleState ⟨1, "admin"⟩ "ghost:permission" none = true := by decide

/-- C4 (amended): for a non-universal actor, with the role cache coherent
with the store, every name absent from the catalog is denied (as a total
function, leaving the state unchanged), and `has_any`/`has_all` over a
(nonempty, for `has_all`) list of absent names answer false. -/
theorem can_missing_fails_closed (s : ShieldState) (u : ShieldUser)
    (name : String) (rid : Option Nat) (names : List String)
    (hrole : u.role ∉ universalRoles)
    (hc : cacheOk s)
    (hname : name ∉ s.db.catalog)
    (hnames : ∀ n ∈ names, n ∉ s.db.catalog) :
    canStep s u name rid = (false, s) ∧
    (has_any s u names).1 = false ∧
    (names ≠ [] → (has_all s u names).1 = false) := by
  refine ⟨canStep_missing s u name rid hrole hc hname, ?_, ?_⟩
  · revert hnames
    induction names with
    | nil => intro _; rfl
    | cons n rest ih =>
      intro hnames
      have h1 := canStep_missing s u n none hrole hc (hnames n (by simp))
      simp only [has_any, h1]
      exact ih (fun m hm => hnames m (by simp [hm]))
  · intro hne
    cases names with
    | nil => exact absurd rfl hne
    | cons n rest =>
      have h1 := canStep_missing s u n none hrole hc (hnames n (by simp))
      simp only [has_all, h1]

/-- Witness for C4 (amended) at a sale actor and two absent names over a
fresh resolver. -/
theorem can_missing_fails_closed_witness :
    canStep sampleState ⟨7, "sale"⟩ "ghost:x" none = (false, sampleState) ∧
    (has_any sampleState ⟨7, "sale"⟩ ["ghost:x", "ghost:y"]).1 = false ∧
    (["ghost:x", "ghost:y"] ≠ ([] : List String) →
      (has_all sampleState ⟨7, "sale"⟩ ["ghost:x", "ghost:y"]).1 = false) :=
  can_missing_fails_closed sampleState ⟨7, "sale"⟩ "ghost:x" none
    ["ghost:x", "ghost:y"] (by decide)
    (by intro role n b h; simp [cacheLookup, sampleState] at h)
    (by decide) (by decide)

/-- Adding a different element via `set.add` does not change membership. -/
theorem mem_setAdd_of_ne (acc : List String) (x p : String) (hne : x ≠ p) :
    p ∈ setAdd acc x ↔ p ∈ acc := by
  unfold setAdd
  split
  · exact Iff.rfl
  · simp [Ne.symm hne]

/-- Discarding a different element via `set.discard` does not change membership. -/
theorem mem_setDiscard_of_ne (acc : List String) (x p : String)
    (hne : x ≠ p) :
    p ∈ setDiscard acc x ↔ p ∈ acc := by
  unfold setDiscard
  simp [List.mem_filter, Ne.symm hne]

/-- Override rows for other names do not change a name's membership in
the accumulated permission set. -/
theorem applyOverrides_not_mentioned (rows : List (Nat × String × Bool))
    (acc : List String) (p : String)
    (h : ∀ r ∈ rows, r.2.1 ≠ p) :
    (p ∈ applyOverrides rows acc ↔ p ∈ acc) := by
  induction rows generalizing acc with
  | nil => exact Iff.rfl
  | cons row rest ih =>
    have hne : row.2.1 ≠ p := h row (by simp)
    rw [applyOverrides]
    rw [ih _ (fun r hr => h r (by simp [hr]))]
    split
    · exact mem_setAdd_of_ne acc row.2.1 p hne
    · exact mem_setDiscard_of_ne acc row.2.1 p hne

/-- If every override row for a name carries the same boolean and at
least one exists, the accumulated set contains the name exactly when that
boolean is a grant. -/
theorem applyOverrides_mentioned (rows : List (Nat × String × Bool))
    (acc : List String) (p : String) (g : Bool)
    (hall : ∀ r ∈ rows, r.2.1 = p → r.2.2 = g)
    (hex : ∃ r ∈ rows, r.2.1 = p) :
    (p ∈ applyOverrides rows acc ↔ g = true) := by
  induction rows generalizing acc with
  | nil => simp at hex
  | cons row rest ih =>
    rw [applyOverrides]
    by_cases hp : row.2.1 = p
    · have hg : row.2.2 = g := hall row (by simp) hp
      have hacc : p ∈ (if row.2.2 then setAdd acc row.2.1
          else setDiscard acc row.2.1) ↔ g = true := by
        subst hp
        rw [← hg]
        cases hgb : row.2.2 with
        | false => simp [setDiscard, List.mem_filter]
        | true =>
          simp only [if_true]
          unfold setAdd
          split <;> simp_all
      by_cases hex2 : ∃ r ∈ rest, r.2.1 = p
      · exact ih _ (fun r hr hrp => hall r (by simp [hr]) hrp) hex2
      · push_neg at hex2
        rw [applyOverrides_not_mentioned rest _ p hex2]
        exact hacc
    · have hex2 : ∃ r ∈ rest, r.2.1 = p := by
        rcases hex with ⟨r, hr, hrp⟩
        rcases List.mem_cons.mp hr with he | hm
        · exact absurd (he ▸ hrp) hp
        · exact ⟨r, hm, hrp⟩
      exact ih _ (fun r hr hrp => hall r (by simp [hr]) hrp) hex2

/-- The role default set computed by `get_user_permissions` contains a
name exactly when the map holds the corresponding `(role, name)` row. -/
theorem mem_roleDefault (rp : List (String × String)) (role p : String) :
    (p ∈ (rp.filter (fun e => e.1 == role)).map (fun e => e.2) ↔
      (role, p) ∈ rp) := by
  simp only [List.mem_map, List.mem_filter, beq_iff_eq]
  constructor
  · rintro ⟨e, ⟨he, hrole⟩, hp⟩
    cases e
    simp_all
  · intro h
    exact ⟨(role, p), ⟨h, rfl⟩, rfl⟩

/-- Under a coherent cache, the role layer answers exactly the uncached
database answer. -/
theorem check_role_permission_fst (s : ShieldState) (role name : String)
    (hc : cacheOk s) :
    (check_role_permission s role name).1 = roleDbAnswer s.db role name := by
  unfold check_role_permission
  cases hcl : cacheLookup s.roleCache (role, name) with
  | some b => simpa using hc role name b hcl
  | none =>
    unfold roleDbAnswer
    by_cases hn : name ∈ s.db.catalog <;> simp [hn]

/-- C3: for every catalogued permission name, membership in
`get_user_permissions` coincides with the answer of `can`, over the same
catalog, role-permission and override state (cache coherent with it). -/
theorem effective_iff_can (s : ShieldState) (u : ShieldUser)
    (hwf : dbWf s.db) (hc : cacheOk s) :
    ∀ p ∈ s.db.catalog,
      (p ∈ get_user_permissions s.db u ↔ can s u p none = true) := by
  intro p hp
  by_cases hu : u.role ∈ universalRoles
  · simp [get_user_permissions, hu, can, canStep, hp]
  · rw [get_user_permissions, if_neg hu]
    show _ ↔ (canStep s u p none).1 = true
    cases hov : findOverride s.db u.id p with
    | some row =>
      have hpred := List.find?_some hov
      simp only [Bool.and_eq_true, beq_iff_eq] at hpred
      have hmemrow : row ∈ s.db.userPerms := List.mem_of_find?_eq_some hov
      have hcu : check_user_permission s.db u p = some row.2.2 := by
        simp [check_user_permission, hp, hov]
      simp only [canStep, if_neg hu, hcu]
      have hsymm : Symmetric
          (fun a b : Nat × String × Bool =>
            ¬(a.1 = b.1 ∧ a.2.1 = b.2.1)) := by
        intro a b hab hba
        exact hab ⟨hba.1.symm, hba.2.symm⟩
      apply applyOverrides_mentioned
      · intro r hr hrp
        rcases List.mem_filter.mp hr with ⟨hrmem, hruid⟩
        simp only [beq_iff_eq] at hruid
        by_cases hre : r = row
        · rw [hre]
        · exact absurd ⟨hruid.trans hpred.1.symm, hrp.trans hpred.2.symm⟩
            (hwf.1.forall hsymm hrmem hmemrow hre)
      · refine ⟨row, List.mem_filter.mpr ⟨hmemrow, ?_⟩, hpred.2⟩
        simp [hpred.1]
    | none =>
      have hcu : check_user_permission s.db u p = none := by
        simp [check_user_permission, hp, hov]
      simp only [canStep, if_neg hu, hcu]
      have hno : ∀ r ∈ s.db.userPerms.filter (fun row => row.1 == u.id),
          r.2.1 ≠ p := by
        intro r hr
        rcases List.mem_filter.mp hr with ⟨hrmem, hruid⟩
        have := List.find?_eq_none.mp hov r hrmem
        simp only [Bool.and_eq_true, beq_iff_eq, not_and] at this
        simp only [beq_iff_eq] at hruid
        exact this hruid
      rw [applyOverrides_not_mentioned _ _ p hno]
      rw [mem_roleDefault s.db.rolePerms u.role p]
      rw [check_role_permission_fst s u.role p hc]
      simp [roleDbAnswer, hp]

/-- Witness for C3 at user 7 (role sale) and the catalogued name
`order:delete` over the fresh sample resolver. -/
theorem effective_iff_can_witness :
    (dbWf sampleDb ∧ cacheOk sampleState ∧
      "order:delete" ∈ sampleDb.catalog) ∧
    ("order:delete" ∈ get_user_permissions sampleDb ⟨7, "sale"⟩ ↔
      can sampleState ⟨7, "sale"⟩ "order:delete" none = true) :=
  ⟨⟨⟨by decide, by decide⟩,
      by intro role n b h; simp [cacheLookup, sampleState] at h, by decide⟩,
    effective_iff_can sampleState ⟨7, "sale"⟩ ⟨by decide, by decide⟩
      (by intro role n b h; simp [cacheLookup, sampleState] at h)
      "order:delete" (by decide)⟩

/-- C9: the decision of `can` (and `cannot`) does not depend on the
optional `resource_id` argument. -/
theorem can_ignores_resource_id (s : ShieldState) (u : ShieldUser)
    (name : String) (r1 r2 : Option Nat) :
    can s u name r1 = can s u name r2 ∧
    cannot s u name r1 = cannot s u name r2 :=
  ⟨rfl, rfl⟩

/-- C10: with zero permission names, `has_all` answers true for every
user and state (vacuous truth) while `has_any` answers false. -/
theorem has_all_nil_has_any_nil (s : ShieldState) (u : ShieldUser) :
    (has_all s u []).1 = true ∧ (has_any s u []).1 = false :=
  ⟨rfl, rfl⟩

/-- The permission catalog written by the `seed_permissions` command, in
the order of its `permissions_data` list (`name` is `resource:action`). -/
def seededPermissionNames : List String :=
  ["order:create", "order:read", "order:update", "order:delete",
   "order:change_status", "order:assign_users", "order:upload_image",
   "order:delete_image", "order:view_all",
   "comment:create", "comment:read", "comment:update", "comment:delete",
   "comment:delete_any",
   "user:create", "user:read", "user:update", "user:delete",
   "user:manage_permissions",
   "product:create", "product:read", "product:update", "product:delete",
   "report:view", "report:export"]

/-- The manager grants of the seed command. -/
def managerSeedPerms : List String :=
  ["order:create", "order:read", "order:update", "order:delete",
   "order:change_status", "order:assign_users", "order:upload_image",
   "order:delete_image", "order:view_all",
   "comment:create", "comment:read", "comment:update", "comment:delete",
   "comment:delete_any",
   "product:create", "product:read", "product:update", "product:delete",
   "report:view", "report:export", "user:read"]

/-- The sale grants of the seed command. -/
def saleSeedPerms : List String :=
  ["order:create", "order:read", "order:update", "order:change_status",
   "order:assign_users", "order:upload_image",
   "comment:create", "comment:read", "comment:update", "comment:delete",
   "product:read", "user:read"]

/-- The weighing grants of the seed command. -/
def weighingSeedPerms : List String :=
  ["order:read", "order:change_status", "order:upload_image",
   "comment:create", "comment:read", "product:read"]

/-- The kitchen grants of the seed command. -/
def kitchenSeedPerms : List String :=
  ["order:read", "order:change_status", "order:upload_image",
   "comment:create", "comment:read", "product:read"]

/-- One role's rows of the role-permission map. -/
def rolePairs (role : String) (names : List String) :
    List (String × String) :=
  names.map (fun n => (role, n))

/-- The database the seed command leaves behind: the full catalog, the
role map with admin granted every permission, and no override rows (the
command deletes every `Permission` row, which cascades over the
overrides' foreign keys, and writes no new ones). -/
def seededDb : PermDb :=
  { catalog := seededPermissionNames
    rolePerms :=
      rolePairs "admin" seededPermissionNames ++
      rolePairs "manager" managerSeedPerms ++
      rolePairs "sale" saleSeedPerms ++
      rolePairs "weighing" weighingSeedPerms ++
      rolePairs "kitchen" kitchenSeedPerms
    userPerms := [] }

/-- Embeds `Command.handle` of `seed_permissions`: clears and rewrites the
catalog and the role-permission map, and does not touch the Shield
resolver's cache (the command never calls `clear_cache`). -/
def seed_permissions (s : ShieldState) : ShieldState :=
  { db := seededDb, roleCache := s.roleCache }

/-- A pre-reseed database in which the sale role still holds
`order:delete`. -/
def preSeedDb : PermDb :=
  { catalog := ["order:delete"]
    rolePerms := [("sale", "order:delete")]
    userPerms := [] }

/-- A fresh resolver over the pre-reseed database. -/
def preSeedState : ShieldState := { db := preSeedDb, roleCache := [] }

/-- C7 is a code bug: one `can` call before the reseed populates the
role cache; `seed_permissions` replaces the map (which now denies sale
`order:delete`) without clearing that cache, so the very next `can` on
the shared resolver still answers `true` from the pre-reseed cache
entry, while a cleared resolver over the same reseeded store answers
`false`. -/
theorem seed_permissions_stale_cache :
    (canStep preSeedState ⟨7, "sale"⟩ "order:delete" none).1 = true ∧
    can (seed_permissions
        (canStep preSeedState ⟨7, "sale"⟩ "order:delete" none).2)
      ⟨7, "sale"⟩ "order:delete" none = true ∧
    can (clear_cache (seed_permissions
        (canStep preSeedState ⟨7, "sale"⟩ "order:delete" none).2))
      ⟨7, "sale"⟩ "order:delete" none = false ∧
    roleDbAnswer seededDb "sale" "order:delete" = false := by decide

/-- Modelled from the spec: the static status-transition table behind
`core.enums.base_enum.UserRole.can_transition` (that module is not among
the sources here; only its caller `update_order_status` is).  The spec
fixes the lifecycle created → assigned → weighing → kitchen → delivery →
completed plus cancelled, and the edge (weighing → kitchen) with allowed
roles weighing, admin, manager; the remaining edges' role sets follow the
spec's per-stage role descriptions. -/
def statusTransitions : List ((String × String) × List String) :=
  [(("created", "assigned"), ["sale", "admin", "manager"]),
   (("assigned", "weighing"), ["sale", "admin", "manager"]),
   (("weighing", "kitchen"), ["weighing", "admin", "manager"]),
   (("kitchen", "delivery"), ["kitchen", "admin", "manager"]),
   (("delivery", "completed"), ["sale", "admin", "manager"]),
   (("created", "cancelled"), ["sale", "admin", "manager"]),
   (("assigned", "cancelled"), ["sale", "admin", "manager"])]

/-- Lookup of the static edge `(fromStatus, toStatus)`. -/
def edgeLookup (table : List ((String × String) × List String))
    (fromStatus toStatus : String) : Option (List String) :=
  (table.find? (fun e => e.1 == (fromStatus, toStatus))).map (fun e => e.2)

/-- Modelled from the spec: `UserRole.can_transition` — no edge means the
transition is illegal for every role; with an edge, the actor's role must
belong to its allowed-role set. -/
def can_transition (role fromStatus toStatus : String) : Bool :=
  match edgeLookup statusTransitions fromStatus toStatus with
  | none => false
  | some roles => decide (role ∈ roles)

/-- C6: transition legality is exactly edge existence plus role
membership in that edge's allowed-role set; in particular on the
(weighing → kitchen) edge a sale actor is denied and a weighing actor is
allowed. -/
theorem can_transition_iff :
    (∀ role fromStatus toStatus,
      (can_transition role fromStatus toStatus = true ↔
        ∃ e ∈ statusTransitions, e.1 = (fromStatus, toStatus) ∧
          role ∈ e.2)) ∧
    can_transition "sale" "weighing" "kitchen" = false ∧
    can_transition "weighing" "weighing" "kitchen" = true := by
  refine ⟨?_, by decide, by decide⟩
  intro role fromStatus toStatus
  have hkeys : statusTransitions.Pairwise (fun a b => a.1 ≠ b.1) := by decide
  unfold can_transition edgeLookup
  cases hf : statusTransitions.find? (fun e => e.1 == (fromStatus, toStatus))
    with
  | none =>
    have hnone := List.find?_eq_none.mp hf
    simp only [Option.map_none']
    constructor
    · intro h; cases h
    · rintro ⟨e, he, hkey, -⟩
      exact absurd (by simp [hkey]) (hnone e he)
  | some e =>
    have hpred := List.find?_some hf
    simp only [beq_iff_eq] at hpred
    have hmem := List.mem_of_find?_eq_some hf
    simp only [Option.map_some', decide_eq_true_eq]
    constructor
    · intro h; exact ⟨e, hmem, hpred, h⟩
    · rintro ⟨f, hfmem, hfkey, hfrole⟩
      have hsymm : Symmetric
          (fun a b : (String × String) × List String => a.1 ≠ b.1) :=
        fun a b hab => fun hba => hab hba.symm
      by_cases hef : e = f
      · exact hef ▸ hfrole
      · exact absurd (hpred.trans hfkey.symm)
          (hkeys.forall hsymm hmem hfmem hef)

/-- The outcome the order-update boundary hands back for a status-change
request: success, or an HTTP error response carrying only a detail
string (`update_order_status` in `router_a.py` returns
`403, {"detail": ...}` on a failed transition check). -/
inductive StatusUpdateResult where
  | ok
  | badRequest (detail : String)
  | forbidden (detail : String)
  deriving Repr, DecidableEq

/-- The HTTP status code of a boundary outcome. -/
def statusCode : StatusUpdateResult → Nat
  | .ok => 200
  | .badRequest _ => 400
  | .forbidden _ => 403

/-- Modelled from the spec: `UserRole.get_allowed_statuses`, the stages a
role may act on, used only inside the denial message; the spec does not
fix the static mapping, so it is modelled as the destination stages of
the edges whose allowed-role set contains the role. -/
def get_allowed_statuses (role : String) : List String :=
  (statusTransitions.filter (fun e => decide (role ∈ e.2))).map
    (fun e => e.1.2)

/-- The permission check of `update_order_status`: a single
`can_transition` test; on failure one 403 response whose detail
interpolates the two statuses and the role's allowed stages (message
rendered here without diacritics). -/
def update_order_status_check (role fromStatus toStatus : String) :
    StatusUpdateResult :=
  if can_transition role fromStatus toStatus then .ok
  else .forbidden
    ("Ban khong co quyen chuyen don tu " ++ fromStatus ++ " sang " ++
      toStatus ++ ". Vai tro cua ban chi duoc phep lam cac giai doan: " ++
      String.intercalate ", " (get_allowed_statuses role))

/-- The two denial reasons the spec distinguishes. -/
inductive DenialReason where
  | invalidTransition
  | roleDenied
  deriving Repr, DecidableEq

/-- Why a transition request is denied, if it is: no edge at all, or an
edge whose allowed-role set excludes the actor's role. -/
def denialReason (role fromStatus toStatus : String) :
    Option DenialReason :=
  match edgeLookup statusTransitions fromStatus toStatus with
  | none => some .invalidTransition
  | some roles =>
    if role ∈ roles then none else some .roleDenied

/-- Counterexample to C8 as stated: a no-edge denial (completed has no
outgoing edge) and a role-not-permitted denial (sale on the
weighing → kitchen edge) both reach the caller as the same 403
`forbidden` outcome, so the two reasons are not reported distinctly. -/
theorem transition_denial_not_distinct :
    denialReason "sale" "completed" "weighing" =
      some DenialReason.invalidTransition ∧
    denialReason "sale" "weighing" "kitchen" =
      some DenialReason.roleDenied ∧
    statusCode (update_order_status_check "sale" "completed" "weighing")
      = 403 ∧
    statusCode (update_order_status_check "sale" "weighing" "kitchen")
      = 403 := by decide

/-- C8 (amended): whenever the transition check denies — for either
reason — the boundary returns the one 403 `forbidden` outcome; the denial
reason is not distinguished by the response kind. -/
theorem transition_denied_uniform (role fromStatus toStatus : String)
    (r : DenialReason)
    (h : denialReason role fromStatus toStatus = some r) :
    (∃ d, update_order_status_check role fromStatus toStatus =
      StatusUpdateResult.forbidden d) ∧
    statusCode (update_order_status_check role fromStatus toStatus)
      = 403 := by
  have hct : can_transition role fromStatus toStatus = false := by
    unfold can_transition
    unfold denialReason at h
    cases hf : edgeLookup statusTransitions fromStatus toStatus with
    | none => rfl
    | some roles =>
      rw [hf] at h
      by_cases hr : role ∈ roles
      · simp [hr] at h
      · simp [hr]
  unfold update_order_status_check
  rw [hct]
  exact ⟨⟨_, rfl⟩, rfl⟩

/-- Witness for C8 (amended) at the sale/no-edge denial. -/
theorem transition_denied_uniform_witness :
    (denialReason "sale" "completed" "weighing" =
      some DenialReason.invalidTransition) ∧
    (∃ d, update_order_status_check "sale" "completed" "weighing" =
      StatusUpdateResult.forbidden d) ∧
    statusCode (update_order_status_check "sale" "completed" "weighing")
      = 403 :=
  ⟨by decide,
    transition_denied_uniform "sale" "completed" "weighing"
      DenialReason.invalidTransition (by decide)⟩
